import Mathlib

/-!
Verification of the utility layer of the profiler repository:
`src/mods/utils/flow.ts` and `src/mods/utils/connect.ts`.

Modelling conventions:
- a TypeScript value of type `T | null | undefined` is modelled by `JSMaybe T`;
- a function that can `throw new Error(msg)` is modelled in the `Except String`
  monad, the `String` carrying the error message;
- a JavaScript object (string-or-numeric-keyed value bag) is modelled as an
  association list in property-insertion order with unique keys; the property
  assignment `obj[k] = v` is `objAssign`, which updates an existing key in
  place and appends a fresh key at the end, exactly JavaScript's semantics
  for enumeration order of string keys.
-/

/-- Models a TypeScript value of type `T | null | undefined`. -/
inductive JSMaybe (T : Type) where
  | undefined
  | null
  | value (t : T)

/-- Models the JavaScript expression `message || dflt` where `message` has
type `string | null | undefined`: the default is taken exactly when `message`
is falsy, i.e. `undefined`, `null`, or the empty string. -/
def jsStringOr (message : JSMaybe String) (dflt : String) : String :=
  match message with
  | .value s => if s = "" then dflt else s
  | _ => dflt

/-- Translation of `assertExhaustiveCheck` (flow.ts lines 20-25): it
unconditionally throws `new Error(errorMessage)`, where `errorMessage` is an
optional parameter defaulting (when the argument is omitted or `undefined`) to
a template literal interpolating the `never`-typed value between double
quotes. The `never`-typed argument is modelled by the string form that the
template literal would produce for it. -/
def assertExhaustiveCheck (notValid : String) (errorMessage : Option String) :
    Except String Unit :=
  Except.error
    (errorMessage.getD ("There was an unhandled case for the value: \"" ++ notValid ++ "\""))

/-- Translation of `ensureExists` (flow.ts lines 124-132): throws on `null`
with message `message || "Expected an item to exist, and it was null."`,
then throws on `undefined` with the analogous default, and otherwise returns
the item unchanged. -/
def ensureExists {T : Type} (item : JSMaybe T) (message : JSMaybe String) : Except String T :=
  match item with
  | .null => Except.error (jsStringOr message "Expected an item to exist, and it was null.")
  | .undefined =>
    Except.error (jsStringOr message "Expected an item to exist, and it was undefined.")
  | .value t => Except.ok t

/-- The ten case labels of the switch statement in `convertToTransformType`
(flow.ts lines 46-55), in source order. -/
def recognizedTransformTypes : List String :=
  ["merge-call-node", "merge-function", "focus-subtree", "focus-function",
   "focus-category", "collapse-resource", "collapse-direct-recursion",
   "collapse-indirect-recursion", "collapse-function-subtree", "drop-function"]

/-- Translation of `convertToTransformType` (flow.ts lines 40-64): a switch on
the input string whose ten labelled cases all return the (coerced) input
string, and whose default arm performs the type-level cast `coercedType as
never` (no runtime effect) and returns `null`. The function is placed in the
error monad so that the absence of any thrown error is expressible; every
branch returns normally. -/
def convertToTransformType (type : String) : Except String (Option String) :=
  if type = "merge-call-node" ∨ type = "merge-function" ∨ type = "focus-subtree" ∨
      type = "focus-function" ∨ type = "focus-category" ∨ type = "collapse-resource" ∨
      type = "collapse-direct-recursion" ∨ type = "collapse-indirect-recursion" ∨
      type = "collapse-function-subtree" ∨ type = "drop-function" then
    Except.ok (some type)
  else
    Except.ok none

lemma mem_recognizedTransformTypes (s : String) :
    s ∈ recognizedTransformTypes ↔
      (s = "merge-call-node" ∨ s = "merge-function" ∨ s = "focus-subtree" ∨
       s = "focus-function" ∨ s = "focus-category" ∨ s = "collapse-resource" ∨
       s = "collapse-direct-recursion" ∨ s = "collapse-indirect-recursion" ∨
       s = "collapse-function-subtree" ∨ s = "drop-function") := by
  simp [recognizedTransformTypes]

lemma convertToTransformType_of_mem {s : String} (hs : s ∈ recognizedTransformTypes) :
    convertToTransformType s = Except.ok (some s) := by
  rw [convertToTransformType, if_pos ((mem_recognizedTransformTypes s).mp hs)]

lemma convertToTransformType_of_not_mem {s : String} (hs : s ∉ recognizedTransformTypes) :
    convertToTransformType s = Except.ok none := by
  rw [convertToTransformType, if_neg (fun h => hs ((mem_recognizedTransformTypes s).mpr h))]

/-- C1: `convertToTransformType` returns the input string itself (typed as a
recognized transform tag) exactly when the input is one of the ten recognized
literal values, compared exactly and case-sensitively; every other string,
including the empty string, case-mismatched variants and prefixes or suffixes
of recognized values, yields `null`. -/
theorem convertToTransformType_spec (s : String) :
    (convertToTransformType s = Except.ok (some s) ↔ s ∈ recognizedTransformTypes) ∧
    (s ∉ recognizedTransformTypes → convertToTransformType s = Except.ok none) := by
  refine ⟨⟨fun h => ?_, fun hs => convertToTransformType_of_mem hs⟩,
    fun hs => convertToTransformType_of_not_mem hs⟩
  by_contra hs
  rw [convertToTransformType_of_not_mem hs] at h
  exact absurd h (by simp)

/-- C1 witness: a case-mismatched variant of a recognized value is rejected. -/
theorem convertToTransformType_spec_witness :
    convertToTransformType "Merge-Function" = Except.ok none :=
  (convertToTransformType_spec "Merge-Function").2 (by decide)

/-- C5: `convertToTransformType` never throws: every input produces a normal
return (the default arm only performs a type-level cast before returning
`null`), and every string outside the ten enumerated case labels takes the
default arm and yields `null`. -/
theorem convertToTransformType_total (s : String) :
    (∃ r, convertToTransformType s = Except.ok r) ∧
    (s ∉ recognizedTransformTypes → convertToTransformType s = Except.ok none) := by
  refine ⟨?_, fun hs => convertToTransformType_of_not_mem hs⟩
  by_cases hs : s ∈ recognizedTransformTypes
  · exact ⟨some s, convertToTransformType_of_mem hs⟩
  · exact ⟨none, convertToTransformType_of_not_mem hs⟩

/-- C5 witness: a prefix of a recognized value takes the default arm and
yields a normal `null` return. -/
theorem convertToTransformType_total_witness :
    (∃ r, convertToTransformType "focus" = Except.ok r) ∧
    convertToTransformType "focus" = Except.ok none :=
  ⟨(convertToTransformType_total "focus").1,
   (convertToTransformType_total "focus").2 (by decide)⟩

/-- C3: `assertExhaustiveCheck` always throws, whatever value is passed; the
error carries the supplied message when one is given, and otherwise the
default message embedding the string form of the unexpected value. -/
theorem assertExhaustiveCheck_spec (notValid : String) (errorMessage : Option String) :
    (∃ e, assertExhaustiveCheck notValid errorMessage = Except.error e) ∧
    assertExhaustiveCheck notValid errorMessage =
      Except.error
        (errorMessage.getD
          ("There was an unhandled case for the value: \"" ++ notValid ++ "\"")) :=
  ⟨⟨_, rfl⟩, rfl⟩

/-- C2: `ensureExists` on `null` with no custom message throws an error whose
message contains the word "null"; on `undefined` with no custom message it
throws an error whose message contains "undefined"; on any present value
(whatever it is, so in particular `0`, `false` and the empty string) it
returns that value unchanged without throwing. -/
theorem ensureExists_spec {T : Type} (t : T) (m : JSMaybe String) :
    (∃ e, ensureExists (JSMaybe.null : JSMaybe T) JSMaybe.undefined = Except.error e ∧
      ∃ pre post, e = pre ++ "null" ++ post) ∧
    (∃ e, ensureExists (JSMaybe.undefined : JSMaybe T) JSMaybe.undefined = Except.error e ∧
      ∃ pre post, e = pre ++ "undefined" ++ post) ∧
    ensureExists (JSMaybe.value t) m = Except.ok t :=
  ⟨⟨_, rfl, "Expected an item to exist, and it was ", ".", rfl⟩,
   ⟨_, rfl, "Expected an item to exist, and it was ", ".", rfl⟩, rfl⟩

/-- C10: when `ensureExists` is called on an absent value with a falsy custom
message (the empty string, or `null`), the raised error carries the built-in
default message rather than the supplied message, because the source selects
the message with `message || default`, i.e. by truthiness. -/
theorem ensureExists_falsy_message :
    ensureExists (JSMaybe.null : JSMaybe Nat) (JSMaybe.value "") =
      Except.error "Expected an item to exist, and it was null." ∧
    ensureExists (JSMaybe.null : JSMaybe Nat) JSMaybe.null =
      Except.error "Expected an item to exist, and it was null." ∧
    ensureExists (JSMaybe.undefined : JSMaybe Nat) (JSMaybe.value "") =
      Except.error "Expected an item to exist, and it was undefined." ∧
    ensureExists (JSMaybe.undefined : JSMaybe Nat) JSMaybe.null =
      Except.error "Expected an item to exist, and it was undefined." :=
  ⟨rfl, rfl, rfl, rfl⟩

/-- Translation of `ExplicitConnectOptions` (connect.ts lines 76-82): the
named-field configuration record. The field types are kept abstract, since
the wrapper treats all fields opaquely. -/
structure ExplicitConnectOptions (MSP MDP MP OPT COMP : Type) where
  mapStateToProps : MSP
  mapDispatchToProps : MDP
  mergeProps : MP
  options : OPT
  component : COMP

/-- Translation of `explicitConnect` (connect.ts lines 97-104): destructures
the configuration and forwards the fields positionally to the underlying
curried `connect` binding function, applying the result to the component.
The imported `connect` is an external collaborator and is taken as an
argument. -/
def explicitConnect {MSP MDP MP OPT COMP RESULT : Type}
    (connect : MSP → MDP → MP → OPT → COMP → RESULT)
    (connectOptions : ExplicitConnectOptions MSP MDP MP OPT COMP) : RESULT :=
  (connect connectOptions.mapStateToProps connectOptions.mapDispatchToProps
    connectOptions.mergeProps connectOptions.options) connectOptions.component

/-- Specification-side definition, from the spec's words for the refinement
claim: calling the underlying connect binding function directly with the
fields in positional order and applying the result to the component. -/
def connectDirectly {MSP MDP MP OPT COMP RESULT : Type}
    (connect : MSP → MDP → MP → OPT → COMP → RESULT)
    (mapStateToProps : MSP) (mapDispatchToProps : MDP) (mergeProps : MP)
    (options : OPT) (component : COMP) : RESULT :=
  (connect mapStateToProps mapDispatchToProps mergeProps options) component

/-- C4: `explicitConnect` applied to a configuration record behaves
identically to calling the underlying connect binding function directly with
the record's fields in positional order and applying the result to the
component; being a pure forwarding function it performs no other computation,
validation or effect. -/
theorem explicitConnect_spec {MSP MDP MP OPT COMP RESULT : Type}
    (connect : MSP → MDP → MP → OPT → COMP → RESULT)
    (connectOptions : ExplicitConnectOptions MSP MDP MP OPT COMP) :
    explicitConnect connect connectOptions =
      connectDirectly connect connectOptions.mapStateToProps
        connectOptions.mapDispatchToProps connectOptions.mergeProps
        connectOptions.options connectOptions.component := rfl

/-- C4 witness: the refinement theorem evaluated at a concrete configuration
over natural numbers. -/
theorem explicitConnect_spec_witness :
    explicitConnect (fun a b c d e => a + b + c + d + e)
        (ExplicitConnectOptions.mk 1 2 3 4 (5 : Nat)) =
      connectDirectly (fun a b c d e => a + b + c + d + e) 1 2 3 4 (5 : Nat) :=
  explicitConnect_spec (fun a b c d e => a + b + c + d + e)
    (ExplicitConnectOptions.mk 1 2 3 4 (5 : Nat))

/-- Translation of `getFirstItemFromSet` (flow.ts lines 137-139): a JS `Set`
iterates in insertion order, so it is modelled as the list of its elements in
that order; `set.values().next().value` is the head of that iteration, and is
`undefined` (here `none`) when the set is empty. -/
def getFirstItemFromSet {T : Type} (set : List T) : Option T :=
  set.head?

/-- C8: `getFirstItemFromSet` returns `undefined` exactly when the set is
empty, and otherwise a member of the set. -/
theorem getFirstItemFromSet_spec {T : Type} (set : List T) :
    (getFirstItemFromSet set = none ↔ set = []) ∧
    ∀ t, getFirstItemFromSet set = some t → t ∈ set := by
  constructor
  · cases set <;> simp [getFirstItemFromSet]
  · intro t ht
    cases set with
    | nil => simp [getFirstItemFromSet] at ht
    | cons a s =>
      simp [getFirstItemFromSet] at ht
      rw [← ht]
      exact List.mem_cons_self a s

/-- C8 witness: on the set with elements 3 then 5, the returned first item is
a member. -/
theorem getFirstItemFromSet_spec_witness : (3 : Nat) ∈ [3, 5] :=
  (getFirstItemFromSet_spec [3, 5]).2 3 rfl

/-- Models the JavaScript property assignment `obj[k] = v` on an object whose
own enumerable string keys, in insertion order, are the list's keys: an
existing key keeps its position and gets the new value; a fresh key is
appended at the end. -/
def objAssign {Key Value : Type} [DecidableEq Key] :
    List (Key × Value) → Key → Value → List (Key × Value)
  | [], k, v => [(k, v)]
  | (a, b) :: rest, k, v =>
    if a = k then (a, v) :: rest else (a, b) :: objAssign rest k v

/-- Models the JavaScript property read `obj[k]`: the value stored at the
key, or `undefined` (here `none`) when the key is absent. -/
def lookupKey {Key Value : Type} [DecidableEq Key] :
    List (Key × Value) → Key → Option Value
  | [], _ => none
  | (a, b) :: rest, k => if a = k then some b else lookupKey rest k

/-- Models `Object.keys`: the object's own keys in insertion order. -/
def objKeys {Key Value : Type} (object : List (Key × Value)) : List Key :=
  object.map Prod.fst

/-- Translation of `objectEntries` (flow.ts lines 98-102): `Object.entries`
returns the own enumerable (key, value) pairs in insertion order, which is
exactly the association list of the model. -/
def objectEntries {Key Value : Type} (object : List (Key × Value)) : List (Key × Value) :=
  object

/-- Translation of `objectMap` (flow.ts lines 108-117): starts from the empty
object literal and, for each entry of `objectEntries object` in order,
performs `result[key] = fn(value, key)`. -/
def objectMap {Key Value Return : Type} [DecidableEq Key]
    (object : List (Key × Value)) (fn : Value → Key → Return) : List (Key × Return) :=
  (objectEntries object).foldl (fun result kv => objAssign result kv.1 (fn kv.2 kv.1)) []

/-- Models `Object.assign(target, source)` for one source: copies each own
enumerable property of the source, in order, onto the target. -/
def assignObj {Key Value : Type} [DecidableEq Key]
    (target source : List (Key × Value)) : List (Key × Value) :=
  source.foldl (fun acc kv => objAssign acc kv.1 kv.2) target

/-- Modelled from the spec: reconstructing an object from an entry list
(JavaScript `Object.fromEntries`), i.e. assigning each (key, value) pair in
order into an initially empty object. -/
def objFromEntries {Key Value : Type} [DecidableEq Key]
    (entries : List (Key × Value)) : List (Key × Value) :=
  assignObj [] entries

/-- Translation of `immutableUpdate` (flow.ts lines 32-34):
`Object.assign({}, object, ...rest)` copies `object` into a fresh empty
object and then copies each object of `rest`, in order, on top of it. -/
def immutableUpdate {Key Value : Type} [DecidableEq Key]
    (object : List (Key × Value)) (rest : List (List (Key × Value))) :
    List (Key × Value) :=
  rest.foldl assignObj (assignObj [] object)

/-- Specification-side lookup across a chain of objects where later objects
override earlier ones: the value at `k` of the last object of the chain that
has `k`, if any. -/
def overrideLookup {Key Value : Type} [DecidableEq Key]
    (objs : List (List (Key × Value))) (k : Key) : Option Value :=
  objs.foldl
    (fun acc o =>
      match lookupKey o k with
      | some v => some v
      | none => acc)
    none

lemma objAssign_of_not_mem {Key Value : Type} [DecidableEq Key]
    (obj : List (Key × Value)) (k : Key) (v : Value) (h : k ∉ objKeys obj) :
    objAssign obj k v = obj ++ [(k, v)] := by
  induction obj with
  | nil => rfl
  | cons e rest ih =>
    obtain ⟨a, b⟩ := e
    simp only [objKeys, List.map_cons, List.mem_cons, not_or] at h
    rw [objAssign, if_neg (fun hak => h.1 hak.symm), ih h.2]
    simp

lemma lookupKey_eq_none_of_not_mem {Key Value : Type} [DecidableEq Key]
    (obj : List (Key × Value)) (k : Key) (h : k ∉ objKeys obj) :
    lookupKey obj k = none := by
  induction obj with
  | nil => rfl
  | cons e rest ih =>
    obtain ⟨a, b⟩ := e
    simp only [objKeys, List.map_cons, List.mem_cons, not_or] at h
    rw [lookupKey, if_neg (fun hak => h.1 hak.symm)]
    exact ih h.2

lemma lookupKey_of_mem {Key Value : Type} [DecidableEq Key]
    {obj : List (Key × Value)} {k : Key} {v : Value}
    (hnd : (objKeys obj).Nodup) (h : (k, v) ∈ obj) :
    lookupKey obj k = some v := by
  induction obj with
  | nil => simp at h
  | cons e rest ih =>
    obtain ⟨a, b⟩ := e
    simp only [objKeys, List.map_cons, List.nodup_cons] at hnd
    rcases List.mem_cons.mp h with h1 | h2
    · rw [show a = k from (Prod.mk.injEq _ _ _ _ ▸ h1.symm).1,
        show b = v from (Prod.mk.injEq _ _ _ _ ▸ h1.symm).2]
      rw [lookupKey, if_pos rfl]
    · have hak : a ≠ k := by
        intro hak
        exact hnd.1 (hak ▸ (List.mem_map.mpr ⟨(k, v), h2, rfl⟩))
      rw [lookupKey, if_neg hak]
      exact ih hnd.2 h2

lemma lookupKey_objAssign {Key Value : Type} [DecidableEq Key]
    (obj : List (Key × Value)) (k : Key) (v : Value) (q : Key) :
    lookupKey (objAssign obj k v) q = if q = k then some v else lookupKey obj q := by
  induction obj with
  | nil =>
    by_cases hq : q = k
    · simp [objAssign, lookupKey, hq]
    · simp [objAssign, lookupKey, hq, Ne.symm hq]
  | cons e rest ih =>
    obtain ⟨a, b⟩ := e
    by_cases hak : a = k
    · rw [objAssign, if_pos hak]
      by_cases hq : q = k
      · rw [lookupKey, if_pos (hak.trans hq.symm), if_pos hq]
      · rw [lookupKey, if_neg (fun h => hq (hak ▸ h).symm), if_neg hq,
          lookupKey, if_neg (fun h => hq (hak ▸ h).symm)]
    · rw [objAssign, if_neg hak]
      by_cases haq : a = q
      · have hq : ¬ q = k := fun h => hak (haq.trans h)
        rw [lookupKey, if_pos haq, if_neg hq, lookupKey, if_pos haq]
      · rw [lookupKey, if_neg haq, ih, lookupKey, if_neg haq]

lemma assignObj_disjoint {Key Value : Type} [DecidableEq Key]
    (source : List (Key × Value)) (target : List (Key × Value))
    (hnd : (objKeys source).Nodup)
    (hdisj : ∀ k ∈ objKeys source, k ∉ objKeys target) :
    assignObj target source = target ++ source := by
  induction source generalizing target with
  | nil => simp [assignObj]
  | cons e s ih =>
    obtain ⟨k, v⟩ := e
    simp only [objKeys, List.map_cons, List.nodup_cons] at hnd
    have hfresh : k ∉ objKeys target := hdisj k (by simp [objKeys])
    have step : assignObj target ((k, v) :: s) = assignObj (target ++ [(k, v)]) s := by
      rw [assignObj, List.foldl_cons, objAssign_of_not_mem target k v hfresh]
      rfl
    rw [step, ih (target ++ [(k, v)]) hnd.2]
    · simp
    · intro q hq
      simp only [objKeys, List.map_append, List.mem_append, List.map_cons,
        List.map_nil, List.mem_singleton, not_or]
      refine ⟨hdisj q (List.mem_cons_of_mem k hq), fun hqk => ?_⟩
      exact hnd.1 (hqk ▸ hq)

lemma lookupKey_assignObj {Key Value : Type} [DecidableEq Key]
    (source : List (Key × Value)) (target : List (Key × Value)) (k : Key)
    (hnd : (objKeys source).Nodup) :
    lookupKey (assignObj target source) k =
      match lookupKey source k with
      | some v => some v
      | none => lookupKey target k := by
  induction source generalizing target with
  | nil => rfl
  | cons e s ih =>
    obtain ⟨a, b⟩ := e
    simp only [objKeys, List.map_cons, List.nodup_cons] at hnd
    have step : assignObj target ((a, b) :: s) = assignObj (objAssign target a b) s := rfl
    rw [step, ih (objAssign target a b) hnd.2]
    by_cases hak : a = k
    · have hs : lookupKey s k = none :=
        lookupKey_eq_none_of_not_mem s k (fun hk => hnd.1 (hak ▸ hk))
      rw [lookupKey, if_pos hak, hs, lookupKey_objAssign, if_pos hak.symm]
    · rw [lookupKey, if_neg hak]
      cases hsk : lookupKey s k with
      | some v => rfl
      | none => rw [lookupKey_objAssign, if_neg (fun h => hak h.symm)]

/-- C6: `objectMap` returns a new bag with exactly the same keys as the input,
where each key `k` maps to `fn(input[k], k)`; the input bag, a pure value of
the model, is not mutated by the call. -/
theorem objectMap_spec {Key Value Return : Type} [DecidableEq Key]
    (object : List (Key × Value)) (fn : Value → Key → Return)
    (h : (objKeys object).Nodup) :
    objKeys (objectMap object fn) = objKeys object ∧
    ∀ k v, (k, v) ∈ object → lookupKey (objectMap object fn) k = some (fn v k) := by
  have hkeys : objKeys (object.map (fun kv => (kv.1, fn kv.2 kv.1))) = objKeys object := by
    simp [objKeys, List.map_map, Function.comp]
  have key : objectMap object fn = object.map (fun kv => (kv.1, fn kv.2 kv.1)) := by
    have e1 : objectMap object fn =
        assignObj [] (object.map (fun kv => (kv.1, fn kv.2 kv.1))) := by
      rw [objectMap, objectEntries, assignObj, List.foldl_map]
    rw [e1, assignObj_disjoint (object.map (fun kv => (kv.1, fn kv.2 kv.1))) []
      (by rw [hkeys]; exact h) (fun q hq => by simp [objKeys])]
    simp
  refine ⟨by rw [key, hkeys], fun k v hkv => ?_⟩
  rw [key]
  exact lookupKey_of_mem (by rw [hkeys]; exact h) (List.mem_map.mpr ⟨(k, v), hkv, rfl⟩)

/-- C6 witness: applying the theorem to the bag with a mapped to 1 and b
mapped to 2 with the doubling function. -/
theorem objectMap_spec_witness :
    objKeys (objectMap [("a", 1), ("b", 2)] (fun (v : Nat) (_ : String) => v * 2)) =
        objKeys [("a", (1 : Nat)), ("b", 2)] ∧
    ∀ k v, (k, v) ∈ [("a", (1 : Nat)), ("b", 2)] →
      lookupKey (objectMap [("a", 1), ("b", 2)] (fun (v : Nat) (_ : String) => v * 2)) k =
        some ((fun (v : Nat) (_ : String) => v * 2) v k) :=
  objectMap_spec [("a", 1), ("b", 2)] (fun v _ => v * 2) (by decide)

/-- C7: reconstructing an object from the entry list produced by
`objectEntries` yields an object structurally equal to the original bag. -/
theorem objectEntries_roundTrip {Key Value : Type} [DecidableEq Key]
    (object : List (Key × Value)) (h : (objKeys object).Nodup) :
    objFromEntries (objectEntries object) = object := by
  rw [objectEntries, objFromEntries,
    assignObj_disjoint object [] h (fun q hq => by simp [objKeys])]
  simp

/-- C7 witness: the round-trip theorem at a concrete two-entry bag. -/
theorem objectEntries_roundTrip_witness :
    objFromEntries (objectEntries [("x", (1 : Nat)), ("y", 2)]) =
      [("x", (1 : Nat)), ("y", 2)] :=
  objectEntries_roundTrip [("x", 1), ("y", 2)] (by decide)

/-- C9: `immutableUpdate` yields the input object's fields overridden in order
by the fields of each object in `rest` (a later occurrence of a key wins);
with no rest arguments the result is a structurally equal copy of the input,
and the input, a pure value of the model, is unchanged. -/
theorem immutableUpdate_spec {Key Value : Type} [DecidableEq Key]
    (object : List (Key × Value)) (rest : List (List (Key × Value)))
    (h1 : (objKeys object).Nodup) (h2 : ∀ o ∈ rest, (objKeys o).Nodup) :
    immutableUpdate object [] = object ∧
    ∀ k, lookupKey (immutableUpdate object rest) k = overrideLookup (object :: rest) k := by
  have base : assignObj [] object = object := by
    rw [assignObj_disjoint object [] h1 (fun q hq => by simp [objKeys])]
    simp
  constructor
  · rw [immutableUpdate, List.foldl_nil, base]
  · intro k
    have main : ∀ (rs : List (List (Key × Value))) (start : List (Key × Value)),
        (∀ o ∈ rs, (objKeys o).Nodup) →
        lookupKey (rs.foldl assignObj start) k =
          rs.foldl
            (fun acc o =>
              match lookupKey o k with
              | some v => some v
              | none => acc)
            (lookupKey start k) := by
      intro rs
      induction rs with
      | nil => intro start _; rfl
      | cons o rs ih =>
        intro start hnd
        rw [List.foldl_cons, ih _ (fun p hp => hnd p (List.mem_cons_of_mem o hp)),
          lookupKey_assignObj o start k (hnd o (List.mem_cons_self o rs)), List.foldl_cons]
    rw [immutableUpdate, base, main rest object h2, overrideLookup]
    simp only [List.foldl_cons]
    congr 1
    cases lookupKey object k <;> rfl

/-- C9 witness: the theorem at a concrete object and two rest objects, one
overriding an existing key and one adding a fresh key. -/
theorem immutableUpdate_spec_witness :
    immutableUpdate [("a", (1 : Nat)), ("b", 2)] [] = [("a", (1 : Nat)), ("b", 2)] ∧
    ∀ k, lookupKey (immutableUpdate [("a", (1 : Nat)), ("b", 2)] [[("b", 3)], [("c", 4)]]) k =
      overrideLookup ([("a", (1 : Nat)), ("b", 2)] :: [[("b", 3)], [("c", 4)]]) k :=
  immutableUpdate_spec [("a", 1), ("b", 2)] [[("b", 3)], [("c", 4)]] (by decide) (by decide)
